import Mathlib

/-
  Verification development for `log-pulse/scripts/pulse.py`.

  The Python source is shallowly embedded below:
  * bytes are `List Nat`, decoded text is `List Char`;
  * file contents are `Option (List Nat)` (`none` models a missing file);
  * timestamps and window widths are exact integers (`Int`) — the code uses
    floating-point epoch seconds only for comparisons and subtraction by
    integral amounts, which this model reproduces exactly;
  * compiled regex pattern lists are abstracted as classification predicates
    `List Char → Bool` (the code only uses them through `_match_any`);
  * code that can raise is modelled in `Option` (a `none` result = uncaught
    Python exception).

  Definitions keep the source's names with the leading underscore dropped
  (`_read_delta` becomes `read_delta`, and so on).
-/

namespace Pulse

/-- One replacement character, as produced by Python's
`bytes.decode("utf-8", errors="replace")` for a malformed sequence. -/
def replChar : Char := '�'

/-- Is `b` a UTF-8 continuation byte (0x80–0xBF)? -/
def isCont (b : Nat) : Bool := 0x80 ≤ b && b ≤ 0xBF

/-- Is `c1` a valid second byte for the 3-byte leader `b`?  Mirrors the
constraints enforced by Python's strict UTF-8 decoder (no overlong forms,
no surrogates). -/
def validSecond3 (b c1 : Nat) : Bool :=
  if b = 0xE0 then 0xA0 ≤ c1 && c1 ≤ 0xBF
  else if b = 0xED then 0x80 ≤ c1 && c1 ≤ 0x9F
  else isCont c1

/-- Is `c1` a valid second byte for the 4-byte leader `b`? -/
def validSecond4 (b c1 : Nat) : Bool :=
  if b = 0xF0 then 0x90 ≤ c1 && c1 ≤ 0xBF
  else if b = 0xF4 then 0x80 ≤ c1 && c1 ≤ 0x8F
  else isCont c1

/-- `chunk.decode("utf-8", errors="replace")`: UTF-8 decoding where each
maximal malformed subpart is replaced by a single U+FFFD, matching CPython's
replacement behaviour (a valid leader with a partial run of valid
continuation bytes consumes those bytes and yields one U+FFFD; an invalid
byte yields one U+FFFD by itself). -/
def utf8Go : Nat → List Nat → List Char
  | _, [] => []
  | 0, _ :: _ => []
  | fuel + 1, b :: rest =>
    if b < 0x80 then Char.ofNat b :: utf8Go fuel rest
    else if 0xC2 ≤ b && b ≤ 0xDF then
      match rest with
      | c1 :: rest1 =>
        if isCont c1 then
          Char.ofNat ((b - 0xC0) * 0x40 + (c1 - 0x80)) :: utf8Go fuel rest1
        else replChar :: utf8Go fuel (c1 :: rest1)
      | [] => [replChar]
    else if 0xE0 ≤ b && b ≤ 0xEF then
      match rest with
      | c1 :: rest1 =>
        if validSecond3 b c1 then
          match rest1 with
          | c2 :: rest2 =>
            if isCont c2 then
              Char.ofNat ((b - 0xE0) * 0x1000 + (c1 - 0x80) * 0x40 + (c2 - 0x80)) ::
                utf8Go fuel rest2
            else replChar :: utf8Go fuel (c2 :: rest2)
          | [] => [replChar]
        else replChar :: utf8Go fuel (c1 :: rest1)
      | [] => [replChar]
    else if 0xF0 ≤ b && b ≤ 0xF4 then
      match rest with
      | c1 :: rest1 =>
        if validSecond4 b c1 then
          match rest1 with
          | c2 :: rest2 =>
            if isCont c2 then
              match rest2 with
              | c3 :: rest3 =>
                if isCont c3 then
                  Char.ofNat ((b - 0xF0) * 0x40000 + (c1 - 0x80) * 0x1000 +
                      (c2 - 0x80) * 0x40 + (c3 - 0x80)) :: utf8Go fuel rest3
                else replChar :: utf8Go fuel (c3 :: rest3)
              | [] => [replChar]
            else replChar :: utf8Go fuel (c2 :: rest2)
          | [] => [replChar]
        else replChar :: utf8Go fuel (c1 :: rest1)
      | [] => [replChar]
    else replChar :: utf8Go fuel rest

/-- Top-level decoder.  Every step of `utf8Go` consumes at least one byte,
so `bs.length` units of fuel always suffice and the fuel-exhausted branch is
unreachable. -/
def utf8DecodeReplace (bs : List Nat) : List Char := utf8Go bs.length bs

/-- `text.replace("\r\n", "\n")`: left-to-right, non-overlapping. -/
def replaceCRLF : List Char → List Char
  | '\r' :: '\n' :: rest => '\n' :: replaceCRLF rest
  | c :: rest => c :: replaceCRLF rest
  | [] => []

/-- `text.replace("\r\n", "\n").replace("\r", "\n")` (pulse.py line 317). -/
def normalizeNewlines (s : List Char) : List Char :=
  (replaceCRLF s).map fun c => if c = '\r' then '\n' else c

/-- `text.split("\n")`: always returns at least one (possibly empty) part. -/
def splitLF : List Char → List (List Char)
  | [] => [[]]
  | '\n' :: rest => [] :: splitLF rest
  | c :: rest =>
    match splitLF rest with
    | [] => [[c]]
    | p :: ps => (c :: p) :: ps

/-- ASCII whitespace as stripped by `str.strip()` (the non-ASCII Unicode
space characters Python also strips never occur in the inputs considered
here). -/
def isPySpace (c : Char) : Bool :=
  c = ' ' || c = '\t' || c = '\n' || c = '\r' || c = '\x0b' || c = '\x0c'

/-- `s.strip()`. -/
def pyStrip (s : List Char) : List Char :=
  ((s.dropWhile isPySpace).reverse.dropWhile isPySpace).reverse

/-- `_short(s, n)` (pulse.py lines 88–96); `n` is a natural number since
every call site passes a positive literal. -/
def short (s : List Char) (n : Nat) : List Char :=
  let s := pyStrip s
  if n = 0 then []
  else if s.length ≤ n then s
  else if n ≤ 3 then s.take n
  else s.take (n - 3) ++ ['.', '.', '.']

/-- Accumulator for `_read_delta`'s per-line counting loop:
`new_lines`, `err_lines`, `warn_lines`, `last_line`. -/
structure Acc where
  newLines : Nat
  errLines : Nat
  warnLines : Nat
  lastLine : List Char
  deriving Repr, DecidableEq

/-- The `for line in parts:` body of `_read_delta` (pulse.py lines 323–330):
count every complete part, classify and remember only non-empty ones. -/
def classifyFold (p q : List Char → Bool) : List (List Char) → Acc → Acc
  | [], a => a
  | line :: rest, a =>
    let a1 : Acc := { a with newLines := a.newLines + 1 }
    let a2 : Acc :=
      if line ≠ [] then
        { a1 with
          errLines := a1.errLines + (if p line then 1 else 0),
          warnLines := a1.warnLines + (if q line then 1 else 0),
          lastLine := line }
      else a1
    classifyFold p q rest a2

/-- The `while True:` chunk loop of `_read_delta` (pulse.py lines 312–330),
with the chunk size (`1024 * 1024` at the call site) as an explicit
parameter.  Returns the final accumulator and the final carry (the trailing
unterminated part). -/
def readChunksGo (chunkSize : Nat) (p q : List Char → Bool) :
    Nat → List Nat → List Char → Acc → Acc × List Char
  | 0, _, carry, a => (a, carry)
  | fuel + 1, bytes, carry, a =>
    if bytes.take chunkSize = [] then (a, carry)
    else
      let text := normalizeNewlines (utf8DecodeReplace (bytes.take chunkSize))
      let text := if carry ≠ [] then carry ++ text else text
      let parts := splitLF text
      let carry2 := parts.getLastD []
      let a2 := classifyFold p q parts.dropLast a
      readChunksGo chunkSize p q fuel (bytes.drop chunkSize) carry2 a2

/-- Top-level chunk loop.  When the loop continues, the chunk is non-empty,
so `chunkSize ≥ 1` and every iteration drops at least one byte:
`bytes.length + 1` units of fuel always suffice (at fuel exhaustion the byte
list is already empty, and the two base branches agree there). -/
def readChunksLoop (chunkSize : Nat) (p q : List Char → Bool)
    (bytes : List Nat) (carry : List Char) (a : Acc) : Acc × List Char :=
  readChunksGo chunkSize p q (bytes.length + 1) bytes carry a

/-- Result of `_read_delta`:
`(new_lines, err_lines, warn_lines, last_line, end_pos)`. -/
structure Delta where
  newLines : Nat
  errLines : Nat
  warnLines : Nat
  lastLine : List Char
  endPos : Nat
  deriving Repr, DecidableEq

/-- `_read_delta(log_path, start_pos, err_pats, warn_pats)` (pulse.py lines
285–335).  `content = none` models `FileNotFoundError` from `stat`. -/
def read_delta (content : Option (List Nat)) (startPos : Nat)
    (p q : List Char → Bool) : Delta :=
  match content with
  | none => ⟨0, 0, 0, [], startPos⟩
  | some bytes =>
    let endPos := bytes.length
    let start := if endPos < startPos then 0 else startPos
    if endPos = start then ⟨0, 0, 0, [], endPos⟩
    else
      let r := readChunksLoop (1024 * 1024) p q (bytes.drop start) [] ⟨0, 0, 0, []⟩
      let last := if r.2 ≠ [] then r.2 else r.1.lastLine
      ⟨r.1.newLines, r.1.errLines, r.1.warnLines, short last 120, endPos⟩

/-- The reference computation named by the specification for the streaming
read: decode the WHOLE byte range at once with replacement, normalize line
endings, split on newline, and classify each complete line; the trailing
unterminated part only updates the last line. -/
def readDeltaRef (content : Option (List Nat)) (startPos : Nat)
    (p q : List Char → Bool) : Delta :=
  match content with
  | none => ⟨0, 0, 0, [], startPos⟩
  | some bytes =>
    let endPos := bytes.length
    let start := if endPos < startPos then 0 else startPos
    if endPos = start then ⟨0, 0, 0, [], endPos⟩
    else
      let text := normalizeNewlines (utf8DecodeReplace (bytes.drop start))
      let parts := splitLF text
      let carry := parts.getLastD []
      let a := classifyFold p q parts.dropLast ⟨0, 0, 0, []⟩
      let last := if carry ≠ [] then carry else a.lastLine
      ⟨a.newLines, a.errLines, a.warnLines, short last 120, endPos⟩

/-- A classification predicate that matches nothing (used for concrete
evaluations; stands for an empty pattern list). -/
def noMatch : List Char → Bool := fun _ => false

/-- Characters `shlex.quote` leaves unquoted: ASCII `\w` plus
`@ % + = : , . / -`. -/
def shlexSafe (c : Char) : Bool :=
  c.isAlphanum || c = '_' || c = '@' || c = '%' || c = '+' || c = '=' ||
    c = ':' || c = ',' || c = '.' || c = '/' || c = '-'

/-- `shlex.quote(s)` as used by `_emit_exit`. -/
def shlex_quote (s : String) : String :=
  if s = "" then "\x27\x27"
  else if s.data.all shlexSafe then s
  else "\x27" ++ s.replace "\x27" "\x27\"\x27\"\x27" ++ "\x27"

/-- `_emit_exit(exit_code, log_path)` (pulse.py lines 196–212).  Returns the
printed lines and the value returned to the caller (the supervisor's exit
code).  `sigName` abstracts `_signal_name` (platform-dependent signal-number
naming); `scriptPath` abstracts `Path(__file__).resolve()`. -/
def emit_exit (exitCode : Int) (logPath scriptPath : String)
    (sigName : Int → String) : List String × Int :=
  let normalized := if exitCode < 0 then 128 + (-exitCode) else exitCode
  let line1 :=
    if exitCode < 0 then
      "pulse: FAILED signal=" ++ sigName (-exitCode) ++ " exit=" ++
        toString (128 + (-exitCode)) ++ " log=" ++ logPath
    else
      "pulse: " ++ (if exitCode = 0 then "ok" else "FAILED") ++ " exit=" ++
        toString exitCode ++ " log=" ++ logPath
  let lines :=
    if normalized ≠ 0 then
      [line1,
       "pulse: extract: python3 " ++ shlex_quote scriptPath ++
         " extract --log " ++ shlex_quote logPath]
    else [line1]
  (lines, normalized)

/-- One rolling-window sample `{"t": .., "lines": .., "err": .., "warn": ..}`
as appended by `pulse_once` (well-typed level). -/
structure Sample where
  t : Int
  lines : Nat
  err : Nat
  warn : Nat
  deriving Repr, DecidableEq

/-- The persisted state (well-typed level): the fields of `_default_state`
(pulse.py line 271). -/
structure PState where
  created_at : Int
  pos : Nat
  total_lines : Int
  samples : List Sample
  last_line : List Char
  deriving Repr, DecidableEq

/-- `_default_state()`. -/
def default_state (now : Int) : PState := ⟨now, 0, 0, [], []⟩

/-- `_prune_samples(samples, cutoff)` (pulse.py lines 338–346): keep the
samples with `t >= cutoff` (on well-typed samples the `try`/`except` never
fires). -/
def prune_samples (samples : List Sample) (cutoff : Int) : List Sample :=
  samples.filter fun s => cutoff ≤ s.t

/-- The window-totals loop of `pulse_once` (pulse.py lines 373–379): sum
`lines`/`err`/`warn` over samples with `t ≥ cutoff`. -/
def windowTotals (samples : List Sample) (cutoff : Int) : Nat × Nat × Nat :=
  samples.foldl
    (fun acc s =>
      if s.t < cutoff then acc
      else (acc.1 + s.lines, acc.2.1 + s.err, acc.2.2 + s.warn))
    (0, 0, 0)

/-- The state-updating core of `pulse_once` (pulse.py lines 349–379): read
the delta, update position / cumulative total / last line, append a sample,
prune with cutoff `now - window - 1`, and compute the windowed totals with
the tighter report cutoff `now - window`. -/
def pulse_core (content : Option (List Nat)) (state : PState)
    (now window : Int) (p q : List Char → Bool) : PState × (Nat × Nat × Nat) :=
  let d := read_delta content state.pos p q
  let samples :=
    prune_samples (state.samples ++ [⟨now, d.newLines, d.errLines, d.warnLines⟩])
      (now - window - 1)
  let st : PState :=
    { state with
      pos := d.endPos,
      total_lines := state.total_lines + d.newLines,
      last_line := if d.lastLine ≠ [] then d.lastLine else state.last_line,
      samples := samples }
  (st, windowTotals samples (now - window))

/-- The summary-line assembly of `pulse_once` (pulse.py lines 383–393):
the four parts, the optional `last:"..."` part, and the optional
`log-missing:...` part, joined by `" | "`. -/
def pulse_parts (window : Int) (w : Nat × Nat × Nat) (total : Int)
    (lastLine : List Char) (includeLast logExists : Bool)
    (logPath : String) : List String :=
  let parts :=
    ["last " ++ toString window ++ "s: +" ++ toString w.1 ++ " lines",
     "errors:" ++ toString w.2.1,
     "warnings:" ++ toString w.2.2,
     "total:" ++ toString total]
  let parts :=
    if includeLast && !lastLine.isEmpty then
      parts ++ ["last:\"" ++ String.mk lastLine ++ "\""]
    else parts
  if logExists then parts else parts ++ ["log-missing:" ++ logPath]

/-- `pulse_once(log_path, state_path, window_s, include_last_line)`
(pulse.py lines 349–393) on a well-typed state: returns the state that is
persisted and the printed summary line.  `content = none` models a missing
log file (both for the delta read and for the `log_path.exists()` check). -/
def pulse_once (logPath : String) (content : Option (List Nat))
    (state : PState) (now window : Int) (p q : List Char → Bool)
    (includeLast : Bool) : PState × String :=
  let r := pulse_core content state now window p q
  (r.1,
   String.intercalate " | "
     (pulse_parts window r.2 r.1.total_lines r.1.last_line includeLast
       content.isSome logPath))

/-- One supervised tick for the fold theorems: the state component of
`pulse_core` at a given log content and time. -/
def applyTick (p q : List Char → Bool) (window : Int) (st : PState)
    (tick : Option (List Nat) × Int) : PState :=
  (pulse_core tick.1 st tick.2 window p q).1

/-- Fold a sequence of ticks (log content and time per tick) into a state. -/
def foldTicks (p q : List Char → Bool) (window : Int) (st : PState)
    (ticks : List (Option (List Nat) × Int)) : PState :=
  ticks.foldl (applyTick p q window) st

/-- The sum of the `new_lines` values of every delta recorded along a tick
sequence started from `st`. -/
def sumNewLines (p q : List Char → Bool) (window : Int) :
    PState → List (Option (List Nat) × Int) → Nat
  | _, [] => 0
  | st, t :: ts =>
    (read_delta t.1 st.pos p q).newLines +
      sumNewLines p q window (applyTick p q window st t) ts

/-! ### Python-value level: `_load_state` tolerance and the raising tick

`_load_state` merges arbitrary parsed JSON with defaults; `pulse_once` then
converts fields with `int()`/`float()`, which raises on inconvertible
values.  Values are modelled by `PyVal`; a `none` result of an operation
models an uncaught Python exception.  JSON numbers are modelled as integers
(the state's timestamps are only compared against and shifted by integral
amounts, which this exact model reproduces). -/

/-- A parsed JSON value as Python data. -/
inductive PyVal where
  | pynone
  | pybool (b : Bool)
  | pyint (n : Int)
  | pystr (s : String)
  | pylist (l : List PyVal)
  | pydict (l : List (String × PyVal))
  deriving Repr

/-- `d[key]` lookup on an insertion-ordered dict. -/
def dictGet : List (String × PyVal) → String → Option PyVal
  | [], _ => none
  | (k, v) :: rest, key => if k = key then some v else dictGet rest key

/-- `d.get(key, dflt)`. -/
def dictGetD (d : List (String × PyVal)) (key : String) (dflt : PyVal) : PyVal :=
  (dictGet d key).getD dflt

/-- `d[key] = v`. -/
def dictSet : List (String × PyVal) → String → PyVal → List (String × PyVal)
  | [], key, v => [(key, v)]
  | (k, w) :: rest, key, v =>
    if k = key then (k, v) :: rest else (k, w) :: dictSet rest key v

/-- `d.setdefault(key, v)`. -/
def pySetdefault (d : List (String × PyVal)) (key : String) (v : PyVal) :
    List (String × PyVal) :=
  if (dictGet d key).isSome then d else d ++ [(key, v)]

/-- Digit-run parser for `int(str)`. -/
def parseDigits : List Char → Option Nat
  | [] => none
  | ds =>
    if ds.all (·.isDigit) then
      some (ds.foldl (fun n c => n * 10 + (c.toNat - 48)) 0)
    else none

/-- `int(s)` for a string: optional surrounding whitespace, optional sign,
then a digit run (digit-group underscores and non-ASCII digits, which
Python also accepts, are not modelled — no claim depends on them). -/
def pyStrToInt (s : String) : Option Int :=
  match pyStrip s.data with
  | '-' :: ds => (parseDigits ds).map fun n => -(n : Int)
  | '+' :: ds => (parseDigits ds).map fun n => (n : Int)
  | ds => (parseDigits ds).map fun n => (n : Int)

/-- `int(v)`: `none` models a raised `TypeError`/`ValueError`. -/
def pyToInt : PyVal → Option Int
  | .pyint n => some n
  | .pybool b => some (if b then 1 else 0)
  | .pystr s => pyStrToInt s
  | _ => none

/-- `float(v)`, with numeric values kept as exact integers (the state's
time model); fractional literals are outside this model. -/
def pyToFloat : PyVal → Option Int
  | .pyint n => some n
  | .pybool b => some (if b then 1 else 0)
  | .pystr s => pyStrToInt s
  | _ => none

/-- Python truthiness. -/
def pyTruthy : PyVal → Bool
  | .pynone => false
  | .pybool b => b
  | .pyint n => n != 0
  | .pystr s => !s.isEmpty
  | .pylist l => !l.isEmpty
  | .pydict d => !d.isEmpty

mutual

/-- `repr(v)` (string escaping inside reprs is approximated; no claim
depends on the display of nested values). -/
def pyRepr : PyVal → String
  | .pynone => "None"
  | .pybool b => if b then "True" else "False"
  | .pyint n => toString n
  | .pystr s => "\x27" ++ s ++ "\x27"
  | .pylist l => "[" ++ String.intercalate ", " (pyReprList l) ++ "]"
  | .pydict d => "\x7b" ++ String.intercalate ", " (pyReprPairs d) ++ "\x7d"

/-- `repr` of the elements of a list. -/
def pyReprList : List PyVal → List String
  | [] => []
  | v :: r => pyRepr v :: pyReprList r

/-- `repr` of the items of a dict. -/
def pyReprPairs : List (String × PyVal) → List String
  | [] => []
  | (k, v) :: r => ("\x27" ++ k ++ "\x27: " ++ pyRepr v) :: pyReprPairs r

end

/-- `str(v)` as interpolated by an f-string. -/
def pyFormat (v : PyVal) : String :=
  match v with
  | .pystr s => s
  | _ => pyRepr v

/-- `list(v)`: `none` models the `TypeError` raised on non-iterables. -/
def pyAsList : PyVal → Option (List PyVal)
  | .pylist l => some l
  | .pystr s => some (s.data.map fun c => PyVal.pystr (String.mk [c]))
  | .pydict d => some (d.map fun kv => PyVal.pystr kv.1)
  | _ => none

/-- `_default_state()` as a Python dict, in field order (pulse.py
line 271). -/
def defaultStateDict (now : Int) : List (String × PyVal) :=
  [("created_at", .pyint now), ("pos", .pyint 0), ("total_lines", .pyint 0),
   ("samples", .pylist []), ("last_line", .pystr "")]

/-- `_load_state(state_path)` (pulse.py lines 274–282) applied to the parse
result (`none` models a missing or unparsable file): replace non-dicts by
the defaults, `setdefault` every default field, and force `samples` to a
list. -/
def load_state (j : Option PyVal) (now : Int) : List (String × PyVal) :=
  let st := match j with
    | some (.pydict d) => d
    | _ => defaultStateDict now
  let st := (defaultStateDict now).foldl (fun acc kv => pySetdefault acc kv.1 kv.2) st
  match dictGet st "samples" with
  | some (.pylist _) => st
  | _ => dictSet st "samples" (.pylist [])

/-- Result of `_read_delta` before the caller's `int()` conversions, with
the raw (possibly negative) position. -/
structure DeltaPy where
  newLines : Nat
  errLines : Nat
  warnLines : Nat
  lastLine : List Char
  endPos : Int
  deriving Repr, DecidableEq

/-- `_read_delta` on a raw Python-int `start_pos`: a negative effective seek
position raises (`none`); otherwise this is `read_delta`. -/
def read_delta_py (content : Option (List Nat)) (start : Int)
    (p q : List Char → Bool) : Option DeltaPy :=
  match content with
  | none => some ⟨0, 0, 0, [], start⟩
  | some bytes =>
    let endP : Int := bytes.length
    let start' := if endP < start then 0 else start
    if endP = start' then some ⟨0, 0, 0, [], endP⟩
    else if start' < 0 then none
    else
      let d := read_delta (some bytes) start'.toNat p q
      some ⟨d.newLines, d.errLines, d.warnLines, d.lastLine, d.endPos⟩

/-- The `_prune_samples` keep-condition on raw values (pulse.py lines
341–345): any exception inside the `try` drops the sample. -/
def pruneKeep (cutoff : Int) (s : PyVal) : Bool :=
  match s with
  | .pydict d =>
    match pyToFloat (dictGetD d "t" (.pyint 0)) with
    | some t => cutoff ≤ t
    | none => false
  | _ => false

/-- The window-totals loop (pulse.py lines 373–379) on raw samples:
`s.get` on a non-dict or a failing `float()`/`int()` conversion raises. -/
def windowTotalsPy (samples : List PyVal) (cutoff : Int) :
    Option (Int × Int × Int) :=
  samples.foldlM
    (fun acc s =>
      match s with
      | .pydict d => do
        let t ← pyToFloat (dictGetD d "t" (.pyint 0))
        if t < cutoff then pure acc
        else do
          let l ← pyToInt (dictGetD d "lines" (.pyint 0))
          let e ← pyToInt (dictGetD d "err" (.pyint 0))
          let w ← pyToInt (dictGetD d "warn" (.pyint 0))
          pure (acc.1 + l, acc.2.1 + e, acc.2.2 + w)
      | _ => none)
    ((0 : Int), (0 : Int), (0 : Int))

/-- `pulse_once` (pulse.py lines 349–393) on a raw loaded state dict:
`none` models an uncaught exception escaping the tick. -/
def pulse_once_py (st0 : List (String × PyVal)) (content : Option (List Nat))
    (logPath : String) (now window : Int) (p q : List Char → Bool)
    (includeLast : Bool) : Option (List (String × PyVal) × String) := do
  let pos ← pyToInt (dictGetD st0 "pos" (.pyint 0))
  let d ← read_delta_py content pos p q
  let st := dictSet st0 "pos" (.pyint d.endPos)
  let tot ← pyToInt (dictGetD st "total_lines" (.pyint 0))
  let st := dictSet st "total_lines" (.pyint (tot + d.newLines))
  let st :=
    if d.lastLine ≠ [] then dictSet st "last_line" (.pystr (String.mk d.lastLine))
    else st
  let samples0 ← pyAsList (dictGetD st "samples" (.pylist []))
  let samples := samples0 ++
    [PyVal.pydict [("t", .pyint now), ("lines", .pyint d.newLines),
                   ("err", .pyint d.errLines), ("warn", .pyint d.warnLines)]]
  let samples := samples.filter (pruneKeep (now - window - 1))
  let st := dictSet st "samples" (.pylist samples)
  let w ← windowTotalsPy samples (now - window)
  let tot2 ← pyToInt (dictGetD st "total_lines" (.pyint 0))
  let parts := ["last " ++ toString window ++ "s: +" ++ toString w.1 ++ " lines",
                "errors:" ++ toString w.2.1,
                "warnings:" ++ toString w.2.2,
                "total:" ++ toString tot2]
  let lastV := dictGetD st "last_line" .pynone
  let parts :=
    if includeLast && pyTruthy lastV then
      parts ++ ["last:\"" ++ pyFormat lastV ++ "\""]
    else parts
  let parts := if content.isSome then parts else parts ++ ["log-missing:" ++ logPath]
  pure (st, String.intercalate " | " parts)

/-- A concrete signal-name function for witnesses (the `f"SIG{sig}"`
fallback branch of `_signal_name`). -/
def sigDemo : Int → String := fun n => "SIG" ++ toString n

/-- `sub` occurs as a contiguous substring of `s`. -/
def strHas (s sub : String) : Prop := ∃ pre post, s = pre ++ sub ++ post

/-- Field-typing condition on one raw sample under which the window-totals
loop's conversions succeed: if the sample is a dict, its `t` is
`float`-convertible and its `lines`/`err`/`warn` are `int`-convertible
(non-dict samples are dropped by pruning before the loop). -/
def sampleFieldsOk (s : PyVal) : Bool :=
  match s with
  | .pydict d =>
    (pyToFloat (dictGetD d "t" (.pyint 0))).isSome &&
      (pyToInt (dictGetD d "lines" (.pyint 0))).isSome &&
      (pyToInt (dictGetD d "err" (.pyint 0))).isSome &&
      (pyToInt (dictGetD d "warn" (.pyint 0))).isSome
  | _ => true

/-- Typing condition on the parsed state file under which the tick cannot
raise: if it is a JSON object, a present `pos` converts to a nonnegative
int, a present `total_lines` converts to an int, and a present `samples`
list has well-typed members.  Absent, unparsable and non-object inputs are
unconditionally fine (they degrade to defaults). -/
def loadInputOk (j : Option PyVal) : Bool :=
  match j with
  | some (.pydict d) =>
    (match dictGet d "pos" with
     | none => true
     | some v => match pyToInt v with
       | some n => decide (0 ≤ n)
       | none => false) &&
    (match dictGet d "total_lines" with
     | none => true
     | some v => (pyToInt v).isSome) &&
    (match dictGet d "samples" with
     | some (.pylist l) => l.all sampleFieldsOk
     | _ => true)
  | _ => true

/-! ### Process-group tracker (`_ProcTracker`)

External process enumeration (`_list_pgid_pids`) is an input: `none` models
an enumeration failure, `some s` a scanned pid set. -/

/-- `_diff_proc_changes(previous, current)` (pulse.py lines 185–193). -/
def diff_proc_changes (previous current : Finset ℕ) : List String :=
  ((current \ previous).sort (· ≤ ·)).map
      (fun pid => "pulse: proc-start pid=" ++ toString pid) ++
    ((previous \ current).sort (· ≤ ·)).map
      (fun pid => "pulse: proc-exit pid=" ++ toString pid)

/-- The mutable fields of `_ProcTracker`. -/
structure ProcTracker where
  track_group_alive : Bool
  track_group_list : Bool
  pgid : Option Int
  last_pids : Finset ℕ
  events : List String
  deriving DecidableEq

/-- `_ProcTracker.__init__` + `_seed` (pulse.py lines 216–235).  `running`
models `proc.poll() is None`; `listing` the `_list_pgid_pids` result. -/
def tracker_seed (pid : Nat) (running : Bool) (trackGroupAlive : Bool)
    (pgid : Option Int) (listing : Option (Finset ℕ)) : ProcTracker :=
  let base : ProcTracker := ⟨trackGroupAlive, false, pgid, ∅, []⟩
  match (if trackGroupAlive && pgid.isSome then listing else none) with
  | some s =>
    let tr := { base with track_group_list := true }
    if s = ∅ ∧ running then
      { tr with last_pids := {pid}, events := diff_proc_changes ∅ {pid} }
    else
      { tr with last_pids := s, events := diff_proc_changes ∅ s }
  | none => { base with last_pids := {pid}, events := diff_proc_changes ∅ {pid} }

/-- `_ProcTracker.scan(proc, rc)` (pulse.py lines 237–248), returning the
updated tracker and the scan's return value. -/
def tracker_scan (tr : ProcTracker) (pid : Nat) (rc : Option Int)
    (listing : Option (Finset ℕ)) : ProcTracker × Option (Finset ℕ) :=
  let current : Option (Finset ℕ) :=
    if tr.track_group_list && tr.pgid.isSome then
      match listing with
      | some s => if s = ∅ ∧ rc = none then none else some s
      | none => none
    else if !tr.track_group_list then
      some (if rc = none then {pid} else ∅)
    else none
  match current with
  | some s =>
    ({ tr with events := tr.events ++ diff_proc_changes tr.last_pids s,
               last_pids := s }, some s)
  | none => (tr, none)

/-! ## Theorems -/


/-- C1: exit-outcome resolution of `_emit_exit`.  For a negative raw code
`c` the resolved code is `128 + (-c)` and the terminal line carries a
`FAILED signal=<NAME>` marker naming that signal; for `c = 0` the line
carries the `ok` marker and the resolved code is `0`; for `c > 0` the line
carries a `FAILED` marker and the resolved code is `c`; whenever the
resolved code is non-zero a second, ready-to-run extraction command line
referencing the (quoted) log path is printed. -/
theorem c1_exit_outcome_resolution (c : Int) (log script : String)
    (sigName : Int → String) :
    (c < 0 →
      (emit_exit c log script sigName).2 = 128 + (-c) ∧
        strHas ((emit_exit c log script sigName).1.headI)
          ("FAILED signal=" ++ sigName (-c))) ∧
    (c = 0 →
      (emit_exit c log script sigName).2 = 0 ∧
        strHas ((emit_exit c log script sigName).1.headI) "ok") ∧
    (0 < c →
      (emit_exit c log script sigName).2 = c ∧
        strHas ((emit_exit c log script sigName).1.headI) "FAILED") ∧
    ((emit_exit c log script sigName).2 ≠ 0 →
      (emit_exit c log script sigName).1 =
        [(emit_exit c log script sigName).1.headI,
         "pulse: extract: python3 " ++ shlex_quote script ++
           " extract --log " ++ shlex_quote log]) := by
  have hsplit : ("pulse: FAILED signal=" : String) = "pulse: " ++ "FAILED signal=" := by
    decide
  refine ⟨fun h => ?_, fun h => ?_, fun h => ?_, fun h => ?_⟩
  · have h0 : ¬(128 + -c = 0) := by omega
    have e : emit_exit c log script sigName =
        (["pulse: FAILED signal=" ++ sigName (-c) ++ " exit=" ++ toString (128 + -c) ++
            " log=" ++ log,
          "pulse: extract: python3 " ++ shlex_quote script ++ " extract --log " ++
            shlex_quote log],
         128 + -c) := by
      simp only [emit_exit, h, if_true, ne_eq, h0, not_false_eq_true, ite_true]
    rw [e]
    refine ⟨rfl, "pulse: ", " exit=" ++ toString (128 + -c) ++ " log=" ++ log, ?_⟩
    simp only [List.headI_cons]
    rw [hsplit]
    simp only [String.append_assoc]
  · subst h
    refine ⟨rfl, "pulse: ", " exit=" ++ toString (0 : Int) ++ " log=" ++ log, ?_⟩
    show "pulse: " ++ "ok" ++ " exit=" ++ toString (0 : Int) ++ " log=" ++ log = _
    simp only [String.append_assoc]
  · have hnlt : ¬(c < 0) := by omega
    have hne : ¬(c = 0) := by omega
    have e : emit_exit c log script sigName =
        (["pulse: " ++ "FAILED" ++ " exit=" ++ toString c ++ " log=" ++ log,
          "pulse: extract: python3 " ++ shlex_quote script ++ " extract --log " ++
            shlex_quote log],
         c) := by
      simp only [emit_exit, hnlt, if_false, ite_false, hne, ne_eq, not_false_eq_true,
        ite_true]
    rw [e]
    refine ⟨rfl, "pulse: ", " exit=" ++ toString c ++ " log=" ++ log, ?_⟩
    simp only [List.headI_cons]
    simp only [String.append_assoc]
  · by_cases hc : c < 0
    · have h0 : ¬(128 + -c = 0) := by omega
      simp only [emit_exit, hc, if_true, ne_eq, h0, not_false_eq_true, ite_true,
        List.headI_cons]
    · simp only [emit_exit, hc, if_false, ite_false, ne_eq] at h ⊢
      simp only [h, not_false_eq_true, ite_true, List.headI_cons]

/-- C1 witness: the three sign cases and the extraction line, at concrete
inputs `c = -15, 0, 3`. -/
theorem c1_exit_outcome_resolution_witness :
    ((emit_exit (-15) "/tmp/a.log" "/s/pulse.py" sigDemo).2 = 128 + 15 ∧
      strHas ((emit_exit (-15) "/tmp/a.log" "/s/pulse.py" sigDemo).1.headI)
        ("FAILED signal=" ++ sigDemo 15)) ∧
    ((emit_exit 0 "/tmp/a.log" "/s/pulse.py" sigDemo).2 = 0 ∧
      strHas ((emit_exit 0 "/tmp/a.log" "/s/pulse.py" sigDemo).1.headI) "ok") ∧
    ((emit_exit 3 "/tmp/a.log" "/s/pulse.py" sigDemo).2 = 3 ∧
      strHas ((emit_exit 3 "/tmp/a.log" "/s/pulse.py" sigDemo).1.headI) "FAILED") ∧
    (emit_exit 3 "/tmp/a.log" "/s/pulse.py" sigDemo).1 =
      [(emit_exit 3 "/tmp/a.log" "/s/pulse.py" sigDemo).1.headI,
       "pulse: extract: python3 " ++ shlex_quote "/s/pulse.py" ++
         " extract --log " ++ shlex_quote "/tmp/a.log"] :=
  ⟨(c1_exit_outcome_resolution (-15) "/tmp/a.log" "/s/pulse.py" sigDemo).1 (by decide),
   (c1_exit_outcome_resolution 0 "/tmp/a.log" "/s/pulse.py" sigDemo).2.1 rfl,
   (c1_exit_outcome_resolution 3 "/tmp/a.log" "/s/pulse.py" sigDemo).2.2.1 (by decide),
   (c1_exit_outcome_resolution 3 "/tmp/a.log" "/s/pulse.py" sigDemo).2.2.2 (by decide)⟩

/-- C2: the summary line the code actually prints joins ALL four parts with
`" | "`, so the errors and warnings counters appear as two separate
segments `errors:0 | warnings:0` — not as the single space-separated
segment `errors:0 warnings:0` the specification (and the module docstring,
pulse.py line 8) prescribe.  Exhibited on a fresh state over an existing
empty log with `window_s = 10`. -/
theorem c2_summary_separator_divergence :
    (pulse_once "x.log" (some []) (default_state 0) 100 10 noMatch noMatch true).2 =
      "last 10s: +0 lines | errors:0 | warnings:0 | total:0" ∧
    (pulse_once "x.log" (some []) (default_state 0) 100 10 noMatch noMatch true).2 ≠
      "last 10s: +0 lines | errors:0 warnings:0 | total:0" := by
  constructor
  · rfl
  · decide

/-- C5: truncation reset in `_read_delta`: when the current file size is
strictly smaller than the requested start offset, the read behaves exactly
like a read from offset 0 (the whole content is re-read and recounted) and
the returned end offset is the new file size. -/
theorem c5_truncation_resets_to_zero (bytes : List Nat) (start : Nat)
    (p q : List Char → Bool) (h : bytes.length < start) :
    read_delta (some bytes) start p q = read_delta (some bytes) 0 p q ∧
    (read_delta (some bytes) start p q).endPos = bytes.length := by
  have h0 : ¬(bytes.length < 0) := by omega
  constructor
  · simp only [read_delta, if_pos h, if_neg h0]
  · simp only [read_delta, if_pos h, if_neg h0]
    split <;> rfl

/-- C5 witness: a 3-byte file read from offset 5. -/
theorem c5_truncation_resets_to_zero_witness :
    ([97, 98, 10] : List Nat).length < 5 ∧
    (read_delta (some [97, 98, 10]) 5 noMatch noMatch =
        read_delta (some [97, 98, 10]) 0 noMatch noMatch ∧
      (read_delta (some [97, 98, 10]) 5 noMatch noMatch).endPos = 3) :=
  ⟨by decide, c5_truncation_resets_to_zero [97, 98, 10] 5 noMatch noMatch (by decide)⟩

/-- C6: chunk-boundary exhibit for the streaming read.  The chunk loop of
`_read_delta` (the body `read_delta` runs with a 1 MiB chunk size) counts a
`\r\n` pair that straddles a chunk boundary as TWO line terminators, because
each chunk is decoded and newline-normalized in isolation: on the bytes of
`"a\r\nb"` with the boundary between `\r` and `\n`, the loop reports 2
complete lines, while the specification's reference computation (decode the
whole range, then normalize, then split) reports 1; with a chunk size that
does not split the pair the same loop also reports 1.  Likewise a
multi-byte UTF-8 character (`é` = C3 A9) straddling a chunk boundary is
decoded as two replacement characters by the loop where the reference
decodes the real character, corrupting the classified line text. -/
theorem c6_chunk_boundary_divergence :
    (readChunksLoop 2 noMatch noMatch [97, 13, 10, 98] [] ⟨0, 0, 0, []⟩).1.newLines = 2 ∧
    (readDeltaRef (some [97, 13, 10, 98]) 0 noMatch noMatch).newLines = 1 ∧
    (readChunksLoop (1024 * 1024) noMatch noMatch [97, 13, 10, 98] [] ⟨0, 0, 0, []⟩).1.newLines = 1 ∧
    (readChunksLoop 1 noMatch noMatch [195, 169, 10] [] ⟨0, 0, 0, []⟩).1.lastLine =
      [replChar, replChar] ∧
    (readDeltaRef (some [195, 169, 10]) 0 noMatch noMatch).lastLine = ['é'] := by
  refine ⟨rfl, rfl, rfl, rfl, rfl⟩

theorem classifyFold_newLines (p q : List Char → Bool) (parts : List (List Char))
    (a : Acc) : (classifyFold p q parts a).newLines = a.newLines + parts.length := by
  induction parts generalizing a with
  | nil => simp [classifyFold]
  | cons l rest ih =>
    simp only [classifyFold, List.length_cons]
    split
    · rw [ih]; simp; omega
    · rw [ih]; simp; omega

theorem classifyFold_counts_le (p q : List Char → Bool) (parts : List (List Char))
    (a : Acc) :
    (classifyFold p q parts a).errLines ≤ a.errLines + parts.length ∧
    (classifyFold p q parts a).warnLines ≤ a.warnLines + parts.length := by
  induction parts generalizing a with
  | nil => simp [classifyFold]
  | cons l rest ih =>
    simp only [classifyFold, List.length_cons]
    split <;>
      (refine ⟨le_trans (ih _).1 ?_, le_trans (ih _).2 ?_⟩ <;>
        (dsimp only; try split) <;> omega)

theorem readChunksGo_counts_le (chunkSize : Nat) (p q : List Char → Bool)
    (fuel : Nat) : ∀ (bytes : List Nat) (carry : List Char) (a : Acc),
    a.errLines ≤ a.newLines → a.warnLines ≤ a.newLines →
    (readChunksGo chunkSize p q fuel bytes carry a).1.errLines ≤
        (readChunksGo chunkSize p q fuel bytes carry a).1.newLines ∧
      (readChunksGo chunkSize p q fuel bytes carry a).1.warnLines ≤
        (readChunksGo chunkSize p q fuel bytes carry a).1.newLines := by
  induction fuel with
  | zero => intro bytes carry a he hw; exact ⟨he, hw⟩
  | succ n ih =>
    intro bytes carry a he hw
    simp only [readChunksGo]
    split
    · exact ⟨he, hw⟩
    · refine ih _ _ _ ?_ ?_
      · have h1 := classifyFold_newLines p q
          (splitLF (if carry ≠ [] then
            carry ++ normalizeNewlines (utf8DecodeReplace (bytes.take chunkSize))
            else normalizeNewlines (utf8DecodeReplace (bytes.take chunkSize)))).dropLast a
        have h2 := classifyFold_counts_le p q
          (splitLF (if carry ≠ [] then
            carry ++ normalizeNewlines (utf8DecodeReplace (bytes.take chunkSize))
            else normalizeNewlines (utf8DecodeReplace (bytes.take chunkSize)))).dropLast a
        omega
      · have h1 := classifyFold_newLines p q
          (splitLF (if carry ≠ [] then
            carry ++ normalizeNewlines (utf8DecodeReplace (bytes.take chunkSize))
            else normalizeNewlines (utf8DecodeReplace (bytes.take chunkSize)))).dropLast a
        have h2 := classifyFold_counts_le p q
          (splitLF (if carry ≠ [] then
            carry ++ normalizeNewlines (utf8DecodeReplace (bytes.take chunkSize))
            else normalizeNewlines (utf8DecodeReplace (bytes.take chunkSize)))).dropLast a
        omega

/-- C10: classification bounds of `_read_delta`.  Every counted complete
line increments the error counter at most once and the warning counter at
most once (empty counted lines increment neither), so for every log content
and start offset the returned delta satisfies
`errLines ≤ newLines` and `warnLines ≤ newLines` (all counters are
naturals, so they are nonnegative by type). -/
theorem c10_classification_counter_bounds (content : Option (List Nat))
    (start : Nat) (p q : List Char → Bool) :
    (read_delta content start p q).errLines ≤ (read_delta content start p q).newLines ∧
    (read_delta content start p q).warnLines ≤ (read_delta content start p q).newLines := by
  cases content with
  | none => exact ⟨Nat.le_refl 0, Nat.le_refl 0⟩
  | some bytes =>
    simp only [read_delta]
    split <;> split <;>
      first
        | exact ⟨Nat.le_refl 0, Nat.le_refl 0⟩
        | exact readChunksGo_counts_le (1024 * 1024) p q _ _ _ ⟨0, 0, 0, []⟩
            (Nat.le_refl 0) (Nat.le_refl 0)

theorem windowTotals_shift (cutoff : Int) (samples : List Sample)
    (acc : Nat × Nat × Nat) :
    samples.foldl
      (fun acc s =>
        if s.t < cutoff then acc
        else (acc.1 + s.lines, acc.2.1 + s.err, acc.2.2 + s.warn)) acc =
    (acc.1 + (windowTotals samples cutoff).1,
     acc.2.1 + (windowTotals samples cutoff).2.1,
     acc.2.2 + (windowTotals samples cutoff).2.2) := by
  induction samples generalizing acc with
  | nil => simp [windowTotals]
  | cons s rest ih =>
    simp only [windowTotals, List.foldl_cons]
    rw [ih, ih]
    by_cases hs : s.t < cutoff
    · simp [hs]
    · simp only [hs, if_false, ite_false, Prod.mk.injEq]
      exact ⟨by omega, by omega, by omega⟩

theorem windowTotals_append (cutoff : Int) (l1 l2 : List Sample) :
    windowTotals (l1 ++ l2) cutoff =
    ((windowTotals l1 cutoff).1 + (windowTotals l2 cutoff).1,
     (windowTotals l1 cutoff).2.1 + (windowTotals l2 cutoff).2.1,
     (windowTotals l1 cutoff).2.2 + (windowTotals l2 cutoff).2.2) := by
  simp only [windowTotals, List.foldl_append]
  rw [windowTotals_shift]
  rfl

theorem windowTotals_prune_independent (c1 c2 : Int) (h : c1 ≤ c2)
    (l : List Sample) :
    windowTotals (prune_samples l c1) c2 = windowTotals l c2 := by
  induction l with
  | nil => rfl
  | cons s rest ih =>
    by_cases hk : c1 ≤ s.t
    · have : prune_samples (s :: rest) c1 = s :: prune_samples rest c1 := by
        simp [prune_samples, hk]
      rw [this]
      simp only [windowTotals, List.foldl_cons]
      rw [windowTotals_shift, windowTotals_shift, ih]
    · have hlt : s.t < c2 := by omega
      have : prune_samples (s :: rest) c1 = prune_samples rest c1 := by
        simp [prune_samples, hk]
      rw [this, ih]
      simp only [windowTotals, List.foldl_cons, if_pos hlt]

theorem windowTotals_all_old (c : Int) (l : List Sample)
    (h : ∀ s ∈ l, s.t < c) : windowTotals l c = (0, 0, 0) := by
  induction l with
  | nil => rfl
  | cons s rest ih =>
    simp only [windowTotals, List.foldl_cons, if_pos (h s (List.mem_cons_self s rest))]
    exact ih fun x hx => h x (List.mem_cons_of_mem s hx)

theorem windowTotals_zero_sample (c : Int) (t : Int) :
    windowTotals [⟨t, 0, 0, 0⟩] c = (0, 0, 0) := by
  simp only [windowTotals, List.foldl_cons, List.foldl_nil]
  split <;> rfl

theorem read_delta_endPos_some (bytes : List Nat) (start : Nat)
    (p q : List Char → Bool) :
    (read_delta (some bytes) start p q).endPos = bytes.length := by
  simp only [read_delta]
  split <;> split <;> rfl

theorem read_delta_at_endPos (content : Option (List Nat)) (start : Nat)
    (p q : List Char → Bool) :
    read_delta content (read_delta content start p q).endPos p q =
      ⟨0, 0, 0, [], (read_delta content start p q).endPos⟩ := by
  cases content with
  | none => rfl
  | some bytes =>
    rw [read_delta_endPos_some]
    simp [read_delta]

/-- C3: windowed totals.  For every window `> 0` and state, the totals
computed by the pulse tick sum `new_lines`/`error_lines`/`warning_lines`
exactly over the samples with timestamp `≥ now - window` — independent of
the (strictly looser) prune cutoff `now - window - 1`; in particular a tick
recording `N` new lines on empty prior samples reports exactly the delta's
counters, and a later query-tick on unchanged content reports `(0, 0, 0)`
once the query time has advanced past the sample's timestamp plus the
window. -/
theorem c3_windowed_totals_exact (content : Option (List Nat)) (st : PState)
    (now window : Int) (p q : List Char → Bool) (hw : 0 < window) :
    ((pulse_core content st now window p q).2 =
      windowTotals (st.samples ++
        [⟨now, (read_delta content st.pos p q).newLines,
          (read_delta content st.pos p q).errLines,
          (read_delta content st.pos p q).warnLines⟩]) (now - window)) ∧
    (st.samples = [] →
      (pulse_core content st now window p q).2 =
        ((read_delta content st.pos p q).newLines,
         (read_delta content st.pos p q).errLines,
         (read_delta content st.pos p q).warnLines)) ∧
    (∀ now2 : Int, now + window < now2 → st.samples = [] →
      (pulse_core content (pulse_core content st now window p q).1 now2 window p q).2 =
        (0, 0, 0)) := by
  have ha : (pulse_core content st now window p q).2 =
      windowTotals (st.samples ++
        [⟨now, (read_delta content st.pos p q).newLines,
          (read_delta content st.pos p q).errLines,
          (read_delta content st.pos p q).warnLines⟩]) (now - window) :=
    windowTotals_prune_independent _ _ (by omega) _
  refine ⟨ha, fun hs => ?_, fun now2 h2 hs => ?_⟩
  · rw [ha, hs, List.nil_append]
    simp only [windowTotals, List.foldl_cons, List.foldl_nil]
    rw [if_neg (by omega : ¬(now < now - window))]
    simp
  · have hd2 : read_delta content (pulse_core content st now window p q).1.pos p q =
        ⟨0, 0, 0, [], (pulse_core content st now window p q).1.pos⟩ :=
      read_delta_at_endPos content st.pos p q
    have hsamp : (pulse_core content st now window p q).1.samples =
        [⟨now, (read_delta content st.pos p q).newLines,
          (read_delta content st.pos p q).errLines,
          (read_delta content st.pos p q).warnLines⟩] := by
      show prune_samples (st.samples ++ [_]) (now - window - 1) = _
      rw [hs, List.nil_append]
      simp only [prune_samples, List.filter_cons, decide_eq_true_eq]
      rw [if_pos (by omega : now - window - 1 ≤ now)]
      rfl
    refine Eq.trans
      (windowTotals_prune_independent (now2 - window - 1) (now2 - window) (by omega) _) ?_
    rw [windowTotals_append, hd2, hsamp]
    rw [windowTotals_zero_sample, windowTotals_all_old (now2 - window)
      _ (by intro s hs'; rw [List.mem_singleton] at hs'; subst hs'; show now < now2 - window; omega)]
    rfl

/-- C3 witness: one line appended at tick time 100, window 10, queried again
at time 200. -/
theorem c3_windowed_totals_exact_witness :
    ((pulse_core (some [97, 10]) (default_state 0) 100 10 noMatch noMatch).2 =
      (1, 0, 0)) ∧
    ((pulse_core (some [97, 10])
        (pulse_core (some [97, 10]) (default_state 0) 100 10 noMatch noMatch).1
        200 10 noMatch noMatch).2 = (0, 0, 0)) := by
  have h := c3_windowed_totals_exact (some [97, 10]) (default_state 0) 100 10
    noMatch noMatch (by decide)
  refine ⟨?_, h.2.2 200 (by decide) rfl⟩
  rw [h.2.1 rfl]
  decide

theorem applyTick_total (p q : List Char → Bool) (window : Int) (st : PState)
    (tick : Option (List Nat) × Int) :
    (applyTick p q window st tick).total_lines =
      st.total_lines + ((read_delta tick.1 st.pos p q).newLines : Int) := rfl

theorem foldTicks_total (p q : List Char → Bool) (window : Int) :
    ∀ (ticks : List (Option (List Nat) × Int)) (st : PState),
      (foldTicks p q window st ticks).total_lines =
        st.total_lines + (sumNewLines p q window st ticks : Int) := by
  intro ticks
  induction ticks with
  | nil => intro st; simp [foldTicks, sumNewLines]
  | cons t ts ih =>
    intro st
    show (foldTicks p q window (applyTick p q window st t) ts).total_lines = _
    rw [ih, applyTick_total]
    show _ = st.total_lines +
      ((((read_delta t.1 st.pos p q).newLines +
        sumNewLines p q window (applyTick p q window st t) ts : Nat) : Int))
    push_cast
    ring

/-- C4: cumulative total invariant.  Folding any tick sequence from a fresh
state leaves `total_lines` equal to the sum of the `new_lines` of every
delta ever recorded, and each single tick adds exactly its delta's
`new_lines` to `total_lines` regardless of the samples list — pruning
touches only `samples`, never `total_lines`. -/
theorem c4_total_lines_pruning_invariant (p q : List Char → Bool)
    (window t0 : Int) (ticks : List (Option (List Nat) × Int)) :
    ((foldTicks p q window (default_state t0) ticks).total_lines =
      (sumNewLines p q window (default_state t0) ticks : Int)) ∧
    (∀ (st : PState) (tick : Option (List Nat) × Int),
      (applyTick p q window st tick).total_lines =
        st.total_lines + ((read_delta tick.1 st.pos p q).newLines : Int)) := by
  constructor
  · rw [foldTicks_total]
    show (0 : Int) + _ = _
    ring
  · intro st tick
    rfl

/-- C8: idempotence on unchanged input.  Running the summary computation
twice in succession over the same log content yields the same persisted
byte offset as after the first call (the second read is a zero delta), an
identical cumulative total, and identical windowed figures. -/
theorem c8_idempotent_on_unchanged_log (logPath : String)
    (content : Option (List Nat)) (st : PState) (now window : Int)
    (p q : List Char → Bool) (il : Bool) :
    ((pulse_once logPath content (pulse_once logPath content st now window p q il).1
        now window p q il).1.pos =
      (pulse_once logPath content st now window p q il).1.pos) ∧
    ((pulse_once logPath content (pulse_once logPath content st now window p q il).1
        now window p q il).1.total_lines =
      (pulse_once logPath content st now window p q il).1.total_lines) ∧
    ((pulse_core content (pulse_once logPath content st now window p q il).1
        now window p q).2 =
      (pulse_core content st now window p q).2) := by
  have hd2 : read_delta content (pulse_once logPath content st now window p q il).1.pos p q =
      ⟨0, 0, 0, [], (pulse_once logPath content st now window p q il).1.pos⟩ :=
    read_delta_at_endPos content st.pos p q
  refine ⟨?_, ?_, ?_⟩
  · show (read_delta content (pulse_once logPath content st now window p q il).1.pos p q).endPos = _
    rw [hd2]
  · show (pulse_once logPath content st now window p q il).1.total_lines +
      ((read_delta content (pulse_once logPath content st now window p q il).1.pos p q).newLines : Int) =
      (pulse_once logPath content st now window p q il).1.total_lines
    rw [hd2]
    simp
  · refine Eq.trans
      (windowTotals_prune_independent (now - window - 1) (now - window) (by omega) _) ?_
    rw [windowTotals_append, hd2, windowTotals_zero_sample]
    simp only [Nat.add_zero]
    rfl

/-- C9: a scan that enumerates an empty pid set while the primary process
has not yet reported exit is discarded.  On `scan` in group-list mode the
tracker is returned completely unchanged (no diff, no queued events, the
previous snapshot retained) and the scan yields no set; at construction the
discarded empty enumeration falls back to seeding with the single primary
pid (there is no previous snapshot yet), queuing exactly the one start
event and no exit event. -/
theorem c9_empty_scan_discarded (tr : ProcTracker) (pid : Nat) :
    (tr.track_group_list = true → tr.pgid.isSome = true →
      tracker_scan tr pid none (some ∅) = (tr, none)) ∧
    (∀ (pid2 : Nat) (g : Int),
      (tracker_seed pid2 true true (some g) (some ∅)).last_pids = {pid2} ∧
      (tracker_seed pid2 true true (some g) (some ∅)).events =
        ["pulse: proc-start pid=" ++ toString pid2]) := by
  constructor
  · intro h1 h2
    simp [tracker_scan, h1, h2]
  · intro pid2 g
    constructor
    · simp [tracker_seed]
    · simp [tracker_seed, diff_proc_changes]

/-- C9 witness: a concrete group-list tracker with snapshot `{3, 4}` and a
pending event, scanned with an empty enumeration while `rc = none`; and a
concrete seed with a discarded empty enumeration. -/
theorem c9_empty_scan_discarded_witness :
    (tracker_scan ⟨true, true, some 7, {3, 4}, ["pulse: proc-start pid=3"]⟩ 3 none
        (some ∅) =
      (⟨true, true, some 7, {3, 4}, ["pulse: proc-start pid=3"]⟩, none)) ∧
    ((tracker_seed 42 true true (some 7) (some ∅)).last_pids = {42} ∧
      (tracker_seed 42 true true (some 7) (some ∅)).events =
        ["pulse: proc-start pid=" ++ toString 42]) :=
  ⟨(c9_empty_scan_discarded ⟨true, true, some 7, {3, 4}, ["pulse: proc-start pid=3"]⟩
      3).1 rfl rfl,
   (c9_empty_scan_discarded ⟨true, true, some 7, {3, 4}, ["pulse: proc-start pid=3"]⟩
      3).2 42 7⟩

theorem dictGet_append (d1 d2 : List (String × PyVal)) (k : String) :
    dictGet (d1 ++ d2) k =
      match dictGet d1 k with
      | some v => some v
      | none => dictGet d2 k := by
  induction d1 with
  | nil => rfl
  | cons kv rest ih =>
    obtain ⟨k1, v1⟩ := kv
    simp only [List.cons_append, dictGet]
    split <;> simp [ih]

theorem dictGet_setdefault_self (d : List (String × PyVal)) (k : String)
    (v : PyVal) : dictGet (pySetdefault d k v) k = some (dictGetD d k v) := by
  unfold pySetdefault dictGetD
  cases h : dictGet d k with
  | some w => simp [h]
  | none =>
    simp only [h, Option.isSome_none, Bool.false_eq_true, if_false, Option.getD_none]
    rw [dictGet_append, h]
    simp [dictGet]

theorem dictGet_setdefault_ne (d : List (String × PyVal)) (k k' : String)
    (v : PyVal) (h : k ≠ k') : dictGet (pySetdefault d k v) k' = dictGet d k' := by
  unfold pySetdefault
  split
  · rfl
  · rw [dictGet_append]
    have : dictGet [(k, v)] k' = none := by simp [dictGet, h]
    rw [this]
    split <;> simp_all

theorem dictGet_dictSet_self (d : List (String × PyVal)) (k : String)
    (v : PyVal) : dictGet (dictSet d k v) k = some v := by
  induction d with
  | nil => simp [dictSet, dictGet]
  | cons kv rest ih =>
    obtain ⟨k1, v1⟩ := kv
    simp only [dictSet]
    split
    · simp only [dictGet]
      rw [if_pos (by assumption)]
    · simp only [dictGet]
      split
      · simp_all
      · exact ih

theorem dictGet_dictSet_ne (d : List (String × PyVal)) (k k' : String)
    (v : PyVal) (h : k ≠ k') : dictGet (dictSet d k v) k' = dictGet d k' := by
  induction d with
  | nil => simp [dictSet, dictGet, h]
  | cons kv rest ih =>
    obtain ⟨k1, v1⟩ := kv
    simp only [dictSet]
    split
    · simp only [dictGet]
      have hk1 : k1 = k := by assumption
      rw [hk1, if_neg h, if_neg h]
    · simp only [dictGet]
      split
      · rfl
      · exact ih

theorem load_state_nondict (j : Option PyVal) (t0 : Int)
    (h : ∀ d, j ≠ some (.pydict d)) : load_state j t0 = defaultStateDict t0 := by
  cases j with
  | none => rfl
  | some v => cases v with
    | pydict d => exact absurd rfl (h d)
    | pynone => rfl
    | pybool b => rfl
    | pyint n => rfl
    | pystr s => rfl
    | pylist l => rfl

theorem load_state_dict_get_pos (d : List (String × PyVal)) (t0 : Int) :
    dictGet (load_state (some (.pydict d)) t0) "pos" =
      some (dictGetD d "pos" (.pyint 0)) := by
  unfold load_state
  simp only [defaultStateDict, List.foldl_cons, List.foldl_nil]
  have hchain :
      dictGet (pySetdefault (pySetdefault (pySetdefault (pySetdefault (pySetdefault d
        "created_at" (.pyint t0)) "pos" (.pyint 0)) "total_lines" (.pyint 0))
        "samples" (.pylist [])) "last_line" (.pystr "")) "pos" =
      some (dictGetD d "pos" (.pyint 0)) := by
    rw [dictGet_setdefault_ne _ _ _ _ (by decide),
        dictGet_setdefault_ne _ _ _ _ (by decide),
        dictGet_setdefault_ne _ _ _ _ (by decide),
        dictGet_setdefault_self]
    unfold dictGetD
    rw [dictGet_setdefault_ne _ _ _ _ (by decide)]
  split
  · exact hchain
  · rw [dictGet_dictSet_ne _ _ _ _ (by decide)]
    exact hchain

theorem load_state_dict_get_total (d : List (String × PyVal)) (t0 : Int) :
    dictGet (load_state (some (.pydict d)) t0) "total_lines" =
      some (dictGetD d "total_lines" (.pyint 0)) := by
  unfold load_state
  simp only [defaultStateDict, List.foldl_cons, List.foldl_nil]
  have hchain :
      dictGet (pySetdefault (pySetdefault (pySetdefault (pySetdefault (pySetdefault d
        "created_at" (.pyint t0)) "pos" (.pyint 0)) "total_lines" (.pyint 0))
        "samples" (.pylist [])) "last_line" (.pystr "")) "total_lines" =
      some (dictGetD d "total_lines" (.pyint 0)) := by
    rw [dictGet_setdefault_ne _ _ _ _ (by decide),
        dictGet_setdefault_ne _ _ _ _ (by decide),
        dictGet_setdefault_self]
    unfold dictGetD
    rw [dictGet_setdefault_ne _ _ _ _ (by decide),
        dictGet_setdefault_ne _ _ _ _ (by decide)]
  split
  · exact hchain
  · rw [dictGet_dictSet_ne _ _ _ _ (by decide)]
    exact hchain

theorem load_state_samples (j : Option PyVal) (t0 : Int) :
    ∃ l0 : List PyVal,
      dictGet (load_state j t0) "samples" = some (.pylist l0) ∧
      (loadInputOk j = true → ∀ s ∈ l0, sampleFieldsOk s = true) := by
  by_cases hd : ∀ d, j ≠ some (.pydict d)
  · refine ⟨[], ?_, fun _ _ h => absurd h (List.not_mem_nil _)⟩
    rw [load_state_nondict j t0 hd]
    rfl
  · push_neg at hd
    obtain ⟨d, rfl⟩ := hd
    unfold load_state
    simp only [defaultStateDict, List.foldl_cons, List.foldl_nil]
    have hchain :
        dictGet (pySetdefault (pySetdefault (pySetdefault (pySetdefault (pySetdefault d
          "created_at" (.pyint t0)) "pos" (.pyint 0)) "total_lines" (.pyint 0))
          "samples" (.pylist [])) "last_line" (.pystr "")) "samples" =
        some (dictGetD d "samples" (.pylist [])) := by
      rw [dictGet_setdefault_ne _ _ _ _ (by decide),
          dictGet_setdefault_self]
      unfold dictGetD
      rw [dictGet_setdefault_ne _ _ _ _ (by decide),
          dictGet_setdefault_ne _ _ _ _ (by decide),
          dictGet_setdefault_ne _ _ _ _ (by decide)]
    rw [hchain]
    cases hv : dictGetD d "samples" (.pylist []) with
    | pylist l =>
      refine ⟨l, by rw [hchain, hv], fun hok s hs => ?_⟩
      simp only [loadInputOk, Bool.and_eq_true] at hok
      have hsc := hok.2
      unfold dictGetD at hv
      cases hg : dictGet d "samples" with
      | none =>
        rw [hg] at hv
        simp only [Option.getD_none] at hv
        cases hv
        exact absurd hs (List.not_mem_nil _)
      | some sv =>
        rw [hg] at hv
        simp only [Option.getD_some] at hv
        subst hv
        rw [hg] at hsc
        simp only [List.all_eq_true] at hsc
        exact hsc s hs
    | pynone => exact ⟨[], by rw [dictGet_dictSet_self], fun _ _ h => absurd h (List.not_mem_nil _)⟩
    | pybool b => exact ⟨[], by rw [dictGet_dictSet_self], fun _ _ h => absurd h (List.not_mem_nil _)⟩
    | pyint n => exact ⟨[], by rw [dictGet_dictSet_self], fun _ _ h => absurd h (List.not_mem_nil _)⟩
    | pystr s => exact ⟨[], by rw [dictGet_dictSet_self], fun _ _ h => absurd h (List.not_mem_nil _)⟩
    | pydict dd => exact ⟨[], by rw [dictGet_dictSet_self], fun _ _ h => absurd h (List.not_mem_nil _)⟩

theorem read_delta_py_isSome (content : Option (List Nat)) (start : Int)
    (p q : List Char → Bool) (h : 0 ≤ start) :
    (read_delta_py content start p q).isSome = true := by
  cases content with
  | none => rfl
  | some bytes =>
    simp only [read_delta_py]
    split
    · split
      · rfl
      · rw [if_neg (by omega : ¬((0 : Int) < 0))]
        rfl
    · split
      · rfl
      · rw [if_neg (by omega : ¬(start < 0))]
        rfl

theorem windowTotalsPy_filter_isSome (c1 c2 : Int) (l : List PyVal)
    (h : ∀ s ∈ l, sampleFieldsOk s = true) :
    (windowTotalsPy (l.filter (pruneKeep c1)) c2).isSome = true := by
  have key : ∀ (l' : List PyVal),
      (∀ s ∈ l', sampleFieldsOk s = true ∧ pruneKeep c1 s = true) →
      ∀ acc : Int × Int × Int,
        (l'.foldlM
          (fun (acc : Int × Int × Int) (s : PyVal) =>
            match s with
            | PyVal.pydict d => do
              let t ← pyToFloat (dictGetD d "t" (PyVal.pyint 0))
              if t < c2 then pure acc
              else do
                let lv ← pyToInt (dictGetD d "lines" (PyVal.pyint 0))
                let e ← pyToInt (dictGetD d "err" (PyVal.pyint 0))
                let w ← pyToInt (dictGetD d "warn" (PyVal.pyint 0))
                pure (acc.1 + lv, acc.2.1 + e, acc.2.2 + w)
            | _ => none) acc).isSome = true := by
    intro l'
    induction l' with
    | nil => intro _ acc; rfl
    | cons s r ih =>
      intro hall acc
      have hsOk := (hall s (List.mem_cons_self s r)).1
      have hsKeep := (hall s (List.mem_cons_self s r)).2
      have hr : ∀ x ∈ r, sampleFieldsOk x = true ∧ pruneKeep c1 x = true :=
        fun x hx => hall x (List.mem_cons_of_mem s hx)
      rw [List.foldlM_cons]
      cases s with
      | pydict d =>
        simp only [pruneKeep] at hsKeep
        cases ht : pyToFloat (dictGetD d "t" (.pyint 0)) with
        | none => rw [ht] at hsKeep; cases hsKeep
        | some t =>
          simp only [sampleFieldsOk, Bool.and_eq_true] at hsOk
          simp only [ht, Option.bind_eq_bind, Option.some_bind]
          by_cases htc : t < c2
          · rw [if_pos htc]
            exact ih hr acc
          · rw [if_neg htc]
            obtain ⟨lv, hlv⟩ := Option.isSome_iff_exists.mp hsOk.1.1.2
            obtain ⟨ev, hev⟩ := Option.isSome_iff_exists.mp hsOk.1.2
            obtain ⟨wv, hwv⟩ := Option.isSome_iff_exists.mp hsOk.2
            simp only [hlv, hev, hwv, Option.bind_eq_bind, Option.some_bind]
            exact ih hr _
      | pynone => cases hsKeep
      | pybool b => cases hsKeep
      | pyint n => cases hsKeep
      | pystr str => cases hsKeep
      | pylist ll => cases hsKeep
  have hmem : ∀ s ∈ l.filter (pruneKeep c1),
      sampleFieldsOk s = true ∧ pruneKeep c1 s = true := by
    intro s hs
    rw [List.mem_filter] at hs
    exact ⟨h s hs.1, hs.2⟩
  exact key (l.filter (pruneKeep c1)) hmem ((0 : Int), (0 : Int), (0 : Int))

theorem pulse_once_py_isSome (st0 : List (String × PyVal))
    (content : Option (List Nat)) (logPath : String) (now window : Int)
    (p q : List Char → Bool) (il : Bool) (pv : PyVal) (n : Int)
    (hpos : dictGet st0 "pos" = some pv) (hpv : pyToInt pv = some n)
    (hn0 : 0 ≤ n) (tv : PyVal) (tn : Int)
    (htot : dictGet st0 "total_lines" = some tv) (htv : pyToInt tv = some tn)
    (l0 : List PyVal) (hsmp : dictGet st0 "samples" = some (.pylist l0))
    (hok : ∀ s ∈ l0, sampleFieldsOk s = true) :
    (pulse_once_py st0 content logPath now window p q il).isSome = true := by
  have h1 : pyToInt (dictGetD st0 "pos" (.pyint 0)) = some n := by
    unfold dictGetD
    rw [hpos, Option.getD_some, hpv]
  obtain ⟨dd, hdd⟩ := Option.isSome_iff_exists.mp (read_delta_py_isSome content n p q hn0)
  have h2 : pyToInt (dictGetD (dictSet st0 "pos" (.pyint dd.endPos))
      "total_lines" (.pyint 0)) = some tn := by
    unfold dictGetD
    rw [dictGet_dictSet_ne _ _ _ _ (by decide), htot, Option.getD_some, htv]
  simp only [pulse_once_py, Option.bind_eq_bind, h1, Option.some_bind, hdd, h2]
  by_cases hcl : dd.lastLine ≠ []
  · rw [if_pos hcl]
    have h3 : dictGetD (dictSet (dictSet (dictSet st0 "pos" (.pyint dd.endPos))
        "total_lines" (.pyint (tn + dd.newLines))) "last_line"
        (.pystr (String.mk dd.lastLine))) "samples" (.pylist []) = .pylist l0 := by
      unfold dictGetD
      rw [dictGet_dictSet_ne _ _ _ _ (by decide),
          dictGet_dictSet_ne _ _ _ _ (by decide),
          dictGet_dictSet_ne _ _ _ _ (by decide), hsmp, Option.getD_some]
    rw [h3]
    simp only [pyAsList, Option.some_bind]
    have hall : ∀ s ∈ l0 ++
        [PyVal.pydict [("t", .pyint now), ("lines", .pyint dd.newLines),
          ("err", .pyint dd.errLines), ("warn", .pyint dd.warnLines)]],
        sampleFieldsOk s = true := by
      intro s hs
      rcases List.mem_append.mp hs with hs1 | hs2
      · exact hok s hs1
      · rw [List.mem_singleton] at hs2
        subst hs2
        rfl
    obtain ⟨wv, hwv⟩ := Option.isSome_iff_exists.mp
      (windowTotalsPy_filter_isSome (now - window - 1) (now - window) _ hall)
    rw [hwv]
    simp only [Option.some_bind]
    have h4 : pyToInt (dictGetD (dictSet (dictSet (dictSet (dictSet st0 "pos"
        (.pyint dd.endPos)) "total_lines" (.pyint (tn + dd.newLines))) "last_line"
        (.pystr (String.mk dd.lastLine))) "samples"
        (.pylist ((l0 ++
          [PyVal.pydict [("t", .pyint now), ("lines", .pyint dd.newLines),
            ("err", .pyint dd.errLines), ("warn", .pyint dd.warnLines)]]).filter
          (pruneKeep (now - window - 1))))) "total_lines" (.pyint 0)) =
        some (tn + dd.newLines) := by
      unfold dictGetD
      rw [dictGet_dictSet_ne _ _ _ _ (by decide),
          dictGet_dictSet_ne _ _ _ _ (by decide),
          dictGet_dictSet_self, Option.getD_some]
      rfl
    rw [h4]
    rfl
  · rw [if_neg hcl]
    have h3 : dictGetD (dictSet (dictSet st0 "pos" (.pyint dd.endPos))
        "total_lines" (.pyint (tn + dd.newLines))) "samples" (.pylist []) =
        .pylist l0 := by
      unfold dictGetD
      rw [dictGet_dictSet_ne _ _ _ _ (by decide),
          dictGet_dictSet_ne _ _ _ _ (by decide), hsmp, Option.getD_some]
    rw [h3]
    simp only [pyAsList, Option.some_bind]
    have hall : ∀ s ∈ l0 ++
        [PyVal.pydict [("t", .pyint now), ("lines", .pyint dd.newLines),
          ("err", .pyint dd.errLines), ("warn", .pyint dd.warnLines)]],
        sampleFieldsOk s = true := by
      intro s hs
      rcases List.mem_append.mp hs with hs1 | hs2
      · exact hok s hs1
      · rw [List.mem_singleton] at hs2
        subst hs2
        rfl
    obtain ⟨wv, hwv⟩ := Option.isSome_iff_exists.mp
      (windowTotalsPy_filter_isSome (now - window - 1) (now - window) _ hall)
    rw [hwv]
    simp only [Option.some_bind]
    have h4 : pyToInt (dictGetD (dictSet (dictSet (dictSet st0 "pos"
        (.pyint dd.endPos)) "total_lines" (.pyint (tn + dd.newLines))) "samples"
        (.pylist ((l0 ++
          [PyVal.pydict [("t", .pyint now), ("lines", .pyint dd.newLines),
            ("err", .pyint dd.errLines), ("warn", .pyint dd.warnLines)]]).filter
          (pruneKeep (now - window - 1))))) "total_lines" (.pyint 0)) =
        some (tn + dd.newLines) := by
      unfold dictGetD
      rw [dictGet_dictSet_ne _ _ _ _ (by decide),
          dictGet_dictSet_self, Option.getD_some]
      rfl
    rw [h4]
    rfl

/-- C7 counterexample: the state file parsing to the JSON object
`{"pos": null}` loads without error (`setdefault` fills only MISSING keys,
so the null survives), but the very next tick raises in
`int(state.get("pos", 0))` — `int(None)` is a `TypeError` — so loading plus
one tick is NOT exception-free for every wrong-typed field. -/
theorem c7_null_pos_field_raises :
    pulse_once_py (load_state (some (.pydict [("pos", .pynone)])) 0)
      (some []) "x.log" 100 10 noMatch noMatch true = none := rfl

/-- C7 (amended): loading never raises and fills every missing field with
its default, and one pulse tick after loading never raises PROVIDED the
fields that are present are convertible: a present `pos` converts to a
nonnegative int, a present `total_lines` converts to an int, and each dict
member of a present `samples` list has convertible `t`/`lines`/`err`/`warn`
fields.  (Absent, unparsable and non-object state files are unconditionally
fine; a wrong-typed scalar field such as `pos: null` makes the tick raise,
per the counterexample.) -/
theorem c7_tolerant_defaults_amended (j : Option PyVal) (t0 : Int)
    (content : Option (List Nat)) (logPath : String) (now window : Int)
    (p q : List Char → Bool) (il : Bool) (hj : loadInputOk j = true) :
    (pulse_once_py (load_state j t0) content logPath now window p q il).isSome =
      true := by
  by_cases hd : ∀ d, j ≠ some (.pydict d)
  · rw [load_state_nondict j t0 hd]
    exact pulse_once_py_isSome _ content logPath now window p q il
      (.pyint 0) 0 rfl rfl (le_refl 0) (.pyint 0) 0 rfl rfl [] rfl
      (fun s hs => absurd hs (List.not_mem_nil _))
  · push_neg at hd
    obtain ⟨d, rfl⟩ := hd
    obtain ⟨l0, hsmpl, hokl⟩ := load_state_samples (some (.pydict d)) t0
    have hok := hokl hj
    simp only [loadInputOk, Bool.and_eq_true] at hj
    obtain ⟨⟨hp, ht⟩, -⟩ := hj
    have hposv : ∃ m, pyToInt (dictGetD d "pos" (.pyint 0)) = some m ∧ 0 ≤ m := by
      unfold dictGetD
      split at hp
      · next heq => rw [heq]; exact ⟨0, rfl, le_refl 0⟩
      · next v heq =>
        rw [heq]
        split at hp
        · next m heq2 =>
          rw [Option.getD_some, heq2]
          exact ⟨m, rfl, of_decide_eq_true hp⟩
        · exact absurd hp (by simp)
    have htotv : ∃ m, pyToInt (dictGetD d "total_lines" (.pyint 0)) = some m := by
      unfold dictGetD
      cases hg : dictGet d "total_lines" with
      | none => exact ⟨0, rfl⟩
      | some v =>
        rw [hg] at ht
        simp only [Option.getD_some]
        exact Option.isSome_iff_exists.mp ht
    obtain ⟨m, hm, hm0⟩ := hposv
    obtain ⟨mt, hmt⟩ := htotv
    exact pulse_once_py_isSome _ content logPath now window p q il
      _ m (load_state_dict_get_pos d t0) hm hm0
      _ mt (load_state_dict_get_total d t0) hmt
      l0 hsmpl hok

/-- C7 witness: a state object with a present well-typed `pos` and an
unrelated junk field, over a one-line log. -/
theorem c7_tolerant_defaults_amended_witness :
    loadInputOk (some (.pydict [("pos", .pyint 5), ("junk", .pynone)])) = true ∧
    (pulse_once_py
      (load_state (some (.pydict [("pos", .pyint 5), ("junk", .pynone)])) 0)
      (some [97, 10]) "x.log" 100 10 noMatch noMatch true).isSome = true :=
  ⟨rfl, c7_tolerant_defaults_amended
    (some (.pydict [("pos", .pyint 5), ("junk", .pynone)])) 0
    (some [97, 10]) "x.log" 100 10 noMatch noMatch true rfl⟩

end Pulse
